import Mathlib

/-!
Verification of the pump.fun scanner bot core.

Shallow embedding of the core of `src/bot.js` (two variants separated by a
document marker in that file) and `src/unnamed/part_000`: the scoring engine
(`scoreToken`), the paper-trade ledger (`openTrade`, `closeTrade`, `calcPnL`,
the per-mint body of `updatePrices`), the signature resolver
(`getMintFromSignature`), the ingestion queue (`enqueueSig`), and the token
handler (`handleMint`).

Modelling conventions:
* JavaScript numbers are modelled as rationals (`ℚ`).  `x.toFixed(n)` followed
  by `parseFloat` is modelled as rounding to `n` decimal places with
  round-half-up (`round`, which agrees with JS `Math.round`).  The one place
  where a non-finite JS number (`NaN`/`Infinity`) can arise in the core is the
  division in `calcPnL`; that division is modelled as `jsDiv`, returning
  `none` for a zero divisor, and the P&L fields are `Option ℚ` with `none`
  standing for a non-finite value.
* Token identities ("mints") are opaque unique strings in the source; they are
  modelled by the opaque-with-decidable-equality type `Mint := ℕ`, with `0`
  playing the role of a falsy (empty) identity in `handleMint`'s `if (!mint)`
  guard.
* `state.openTrades` is a JavaScript object used as a map keyed by mint; it is
  modelled as an insertion-ordered association list.
* `state.seenMints` is an array appended at the tail and trimmed with
  `slice(-1000)` (keep the newest 1000).  It is modelled newest-first, so the
  source's tail-push is `cons` and `slice(-1000)` is `take 1000`.
* External effects (Telegram sends, RPC calls, metadata fetches) are modelled
  by explicit inputs (fetched data passed in as `Option Coin`, an RPC oracle
  `ℕ → RpcOutcome`) and explicit outputs (action records saying which alerts
  were dispatched).
-/

namespace PumpBot

/-- Token identities are opaque unique strings in the source (`mint`
addresses); modelled as naturals, `0` standing for a falsy/empty identity. -/
abbrev Mint : Type := ℕ

/-! ## JavaScript numeric primitives -/

/-- JS `Math.round`: round half toward positive infinity, which is exactly
Mathlib's `round` (`⌊x + 1/2⌋`). -/
def jsRound (q : ℚ) : ℤ := round q

/-- JS `parseFloat(x.toFixed(n))`: round to `n` decimal digits. -/
def jsToFixed (n : ℕ) (q : ℚ) : ℚ := (round (q * (10 : ℚ) ^ n) : ℚ) / (10 : ℚ) ^ n

/-- JS `Math.sign`, as an integer. -/
def jsSignZ (q : ℚ) : ℤ := if 0 < q then 1 else if q < 0 then -1 else 0

/-- JS `a || b` for an optional numeric field `a`: `b` when the field is
absent or `0` (zero is falsy in JS). -/
def jsOrQ (o : Option ℚ) (dflt : ℚ) : ℚ :=
  match o with
  | none => dflt
  | some v => if v = 0 then dflt else v

/-- JS division on finite numbers: a zero divisor yields a non-finite result
(`Infinity` or `NaN`), modelled as `none`. -/
def jsDiv (a b : ℚ) : Option ℚ := if b = 0 then none else some (a / b)

/-! ## Configuration constants (src/bot.js CONFIG blocks, src/unnamed/part_000) -/

def GRADUATION_SOL : ℚ := 42
def SOL_PRICE_USD : ℚ := 175
def MAX_OPEN_TRADES : ℕ := 20
def PNL_ALERT_STEP : ℚ := 25
def WHALE_SOL_THRESH : ℚ := 5

/-! ## Token telemetry and scoring (scoreToken) -/

/-- Verdict enum produced by the scoring engine. -/
inductive Verdict where
  | BUY
  | WATCH
  | SKIP
  deriving Repr, DecidableEq

/-- Raw pump.fun coin record, with the fields `scoreToken`, `openTrade` and
`updatePrices` read.  Optional numeric fields model absent JS fields; the
social/flag fields model JS truthiness of the corresponding fields. -/
structure Coin where
  mint : Mint := 0
  symbol : Option String := none
  name : Option String := none
  virtual_sol_reserves : Option ℚ := none
  usd_market_cap : Option ℚ := none
  created_timestamp : Option ℚ := none
  reply_count : Option ℚ := none
  twitter : Bool := false
  telegram : Bool := false
  website : Bool := false
  is_currently_king_of_the_hill : Bool := false
  complete : Bool := false
  deriving Repr, DecidableEq

/-- Result record of `scoreToken`. -/
structure ScoreResult where
  mint : Mint
  symbol : String
  name : String
  solInCurve : ℚ
  bondingPct : ℚ
  mcapUSD : ℚ
  velocitySOL : ℚ
  ageSeconds : ℤ
  replyCount : ℚ
  hasTwitter : Bool
  hasTelegram : Bool
  hasWebsite : Bool
  isKingOfHill : Bool
  complete : Bool
  whaleAlert : Bool
  score : ℤ
  verdict : Verdict
  deriving Repr, DecidableEq

/-- Source `scoreToken` (src/unnamed/part_000 lines 127–173; the copies at
src/bot.js lines 161–224 and 886–932 compute the identical score and verdict —
the first bot.js copy reads `coin.created_timestamp` without the
`|| Date.now()` default, which is the `created_timestamp = some ts` case
here, and omits the `whaleAlert` field).  `now` is `Date.now()`. -/
def scoreToken (now : ℚ) (coin : Coin) : ScoreResult :=
  let solInCurve := jsOrQ coin.virtual_sol_reserves 0 / 1000000000
  let bondingPct := jsToFixed 1 (min 99 (solInCurve / GRADUATION_SOL * 100))
  let mcapUSD := jsOrQ coin.usd_market_cap 0
  let ageSeconds : ℤ := ⌊(now - jsOrQ coin.created_timestamp now) / 1000⌋
  let replyCount := jsOrQ coin.reply_count 0
  let hasTwitter := coin.twitter
  let hasTelegram := coin.telegram
  let hasWebsite := coin.website
  let isKingOfHill := coin.is_currently_king_of_the_hill
  let ageMinutes := max (1 / 10) ((ageSeconds : ℚ) / 60)
  let velocitySOL := jsToFixed 3 (solInCurve / ageMinutes)
  let s0 : ℚ := min 28 (velocitySOL * 6)
  let s1 := s0 + (if hasTwitter then 8 else 0) + (if hasTelegram then 6 else 0)
              + (if hasWebsite then 4 else 0)
  let s2 := s1 + min 12 (replyCount / 25 * 12)
  let s3 := s2 + (if isKingOfHill then 8 else 0)
  let s4 := s3 + (if ageSeconds < 60 then 14 else if ageSeconds < 120 then 10
                  else if ageSeconds < 300 then 5 else 0)
  let s5 := s4 + (if 5 < solInCurve then 5 else 0) + (if 15 < solInCurve then 5 else 0)
              + (if 28 < solInCurve then 4 else 0)
  let score : ℤ := max 0 (min 100 (jsRound s5))
  { mint := coin.mint
    symbol := (coin.symbol.getD "???").toUpper
    name := coin.name.getD "Unknown"
    solInCurve := jsToFixed 3 solInCurve
    bondingPct := bondingPct
    mcapUSD := mcapUSD
    velocitySOL := velocitySOL
    ageSeconds := ageSeconds
    replyCount := replyCount
    hasTwitter := hasTwitter
    hasTelegram := hasTelegram
    hasWebsite := hasWebsite
    isKingOfHill := isKingOfHill
    complete := coin.complete
    whaleAlert := decide (WHALE_SOL_THRESH ≤ solInCurve)
    score := score
    verdict := if 68 ≤ score then .BUY else if 45 ≤ score then .WATCH else .SKIP }

/-! ## Paper-trade ledger state -/

/-- Source `state.config` (defaults from the STATE blocks). -/
structure Config where
  minScore : ℤ := 65
  tradeAmount : ℚ := 1 / 10
  paused : Bool := false
  paperTrading : Bool := true
  alertWatch : Bool := false
  deriving Repr, DecidableEq

/-- Source `state.stats` (second bot.js variant). -/
structure Stats where
  tokensReceived : ℕ := 0
  alertsSent : ℕ := 0
  totalTrades : ℕ := 0
  startedAt : ℚ := 0
  wsConnected : Bool := false
  lastEventAt : Option ℚ := none
  deriving Repr, DecidableEq

/-- An open paper trade.  `lastAlertStep` is a JS number that can become `NaN`
when the entry market cap is zero (see `calcPnL`), hence `Option ℤ` with
`none` for `NaN`; it is initialised to `some 0`. -/
structure Trade where
  mint : Mint
  symbol : String
  name : String
  entryMcap : ℚ
  entryBonding : ℚ
  currentMcap : ℚ
  peakMcap : ℚ
  solAmount : ℚ
  entryTime : ℚ
  score : ℤ
  lastAlertStep : Option ℤ
  migrated : Bool
  deriving Repr, DecidableEq

/-- A closed trade: the spread `...trade` is kept as the nested `trade` field,
extended with the exit data.  P&L fields are `Option ℚ` (`none` = non-finite). -/
structure ClosedTrade where
  trade : Trade
  exitMcap : ℚ
  exitTime : ℚ
  durationMs : ℚ
  pnlSOL : Option ℚ
  pnlUSD : Option ℚ
  pnlPct : Option ℚ
  reason : String
  deriving Repr, DecidableEq

/-- The process-wide `state` object.  `seenMints` is newest-first (the source
appends at the tail; see the module comment), `openTrades` is an
insertion-ordered association list (JS object), `closedTrades` newest-first. -/
structure BotState where
  config : Config := {}
  seenMints : List Mint := []
  openTrades : List (Mint × Trade) := []
  closedTrades : List ClosedTrade := []
  stats : Stats := {}
  deriving Repr, DecidableEq

/-- Source `saveState`'s in-memory trimming (src/bot.js lines 76–82 / 800–805): the
dedup ring buffer is cut to the newest 1000 entries once it exceeds 2000
(`slice(-1000)`, i.e. `take 1000` on the newest-first list), and the closed
list is truncated to its first (newest) 500 entries.  The file write itself is
external I/O with no state effect. -/
def saveStateTrim (st : BotState) : BotState :=
  { st with
    seenMints := if 2000 < st.seenMints.length then st.seenMints.take 1000 else st.seenMints
    closedTrades := if 500 < st.closedTrades.length then st.closedTrades.take 500
                    else st.closedTrades }

/-- P&L record returned by `calcPnL`; `none` models a non-finite JS number. -/
structure PnL where
  pnlSOL : Option ℚ
  pnlUSD : Option ℚ
  pnlPct : Option ℚ
  mult : Option ℚ
  deriving Repr, DecidableEq

/-- Source `calcPnL` (src/bot.js lines 318–324 / 1021–1027).  The division
`currentMcap / trade.entryMcap` has no zero guard in the source; a zero
`entryMcap` makes `mult` non-finite (`jsDiv` returns `none`) and this
propagates to every P&L field. -/
def calcPnL (trade : Trade) (currentMcap : ℚ) : PnL :=
  let mult := jsDiv currentMcap trade.entryMcap
  let pnlSOL := mult.map (fun m => jsToFixed 4 ((m - 1) * trade.solAmount))
  let pnlUSD := pnlSOL.map (fun p => jsToFixed 2 (p * SOL_PRICE_USD))
  let pnlPct := mult.map (fun m => jsToFixed 1 ((m - 1) * 100))
  { pnlSOL := pnlSOL, pnlUSD := pnlUSD, pnlPct := pnlPct, mult := mult }

/-- Source `openTrade` (src/bot.js lines 273–296 / 982–1003).  Returns the created
trade (`null` = `none` when rejected) together with the updated state;
`Date.now()` is the `now` argument. -/
def openTrade (now : ℚ) (token : ScoreResult) (st : BotState) : Option Trade × BotState :=
  if MAX_OPEN_TRADES ≤ st.openTrades.length then (none, st)
  else if (st.openTrades.lookup token.mint).isSome then (none, st)
  else
    let trade : Trade :=
      { mint := token.mint
        symbol := token.symbol
        name := token.name
        entryMcap := token.mcapUSD
        entryBonding := token.bondingPct
        currentMcap := token.mcapUSD
        peakMcap := token.mcapUSD
        solAmount := st.config.tradeAmount
        entryTime := now
        score := token.score
        lastAlertStep := some 0
        migrated := false }
    (some trade,
      saveStateTrim
        { st with
          openTrades := st.openTrades ++ [(token.mint, trade)]
          stats := { st.stats with totalTrades := st.stats.totalTrades + 1 } })

/-- Source `closeTrade` (src/bot.js lines 298–316 / 1005–1019).  `delete
state.openTrades[mint]` removes the key from the map, modelled by filtering
the association list. -/
def closeTrade (now : ℚ) (mint : Mint) (exitMcap : ℚ) (reason : String)
    (st : BotState) : Option ClosedTrade × BotState :=
  match st.openTrades.lookup mint with
  | none => (none, st)
  | some trade =>
    let p := calcPnL trade exitMcap
    let closed : ClosedTrade :=
      { trade := trade
        exitMcap := exitMcap
        exitTime := now
        durationMs := now - trade.entryTime
        pnlSOL := p.pnlSOL
        pnlUSD := p.pnlUSD
        pnlPct := p.pnlPct
        reason := reason }
    (some closed,
      saveStateTrim
        { st with
          closedTrades := closed :: st.closedTrades
          openTrades := st.openTrades.filter (fun e => e.1 != mint) })

/-! ## Price refresh (per-mint body of updatePrices) -/

/-- The discretised alert step of a (finite) pnl percentage:
`Math.floor(Math.abs(pnlPct) / PNL_ALERT_STEP) * Math.sign(pnlPct)`. -/
def alertStep (pnlPct : ℚ) : ℤ := ⌊|pnlPct| / PNL_ALERT_STEP⌋ * jsSignZ pnlPct

/-- The alert step of a possibly non-finite pnl percentage (`NaN` in, `NaN`
out). -/
def jsStepOf (pnlPct : Option ℚ) : Option ℤ := pnlPct.map alertStep

/-- JS strict inequality `a !== b` on possibly-`NaN` numbers: `NaN` compares
unequal to everything, including itself. -/
def jsNeqZ (a b : Option ℤ) : Bool :=
  match a, b with
  | some x, some y => x != y
  | _, _ => true

/-- Replace the value stored at key `k` (in-place mutation of the object held
in the map). -/
def updateAssoc (l : List (Mint × Trade)) (k : Mint) (v : Trade) : List (Mint × Trade) :=
  l.map (fun e => if e.1 = k then (k, v) else e)

/-- Externally observable actions of one `updatePrices` loop iteration. -/
structure RefreshActions where
  pnlAlert : Bool := false
  gradAlert : Bool := false
  closeAlert : Bool := false
  closed : Option ClosedTrade := none
  deriving Repr, DecidableEq

/-- The in-place trade mutations of one `updatePrices` iteration up to the
graduation check (src/bot.js lines 523–536 / 1285–1297): update
`currentMcap`, raise `peakMcap` if exceeded, and — when the discretised
`±25 %` step is nonzero and differs from `lastAlertStep` — record the new
step.  Returns the mutated trade and whether a P&L alert was sent. -/
def refreshTrade (trade : Trade) (d : Coin) : Trade × Bool :=
  let currentMcap := jsOrQ d.usd_market_cap trade.currentMcap
  let trade1 := { trade with
    currentMcap := currentMcap
    peakMcap := if trade.peakMcap < currentMcap then currentMcap else trade.peakMcap }
  let p := calcPnL trade1 currentMcap
  let step := jsStepOf p.pnlPct
  let doAlert := jsNeqZ step (some 0) && jsNeqZ step trade1.lastAlertStep
  (if doAlert then { trade1 with lastAlertStep := step } else trade1, doAlert)

/-- One iteration of the `updatePrices` loop for mint `mint` (src/bot.js
lines 516–545 / 1278–1305), given the metadata-fetch result `data`
(`none` = fetch failed, the iteration is skipped).  Returns the new state and
the alerts dispatched. -/
def updateOne (now : ℚ) (st : BotState) (mint : Mint) (data : Option Coin) :
    BotState × RefreshActions :=
  match st.openTrades.lookup mint with
  | none => (st, {})
  | some trade =>
    match data with
    | none => (st, {})
    | some d =>
      let (trade2, doAlert) := refreshTrade trade d
      let st1 := { st with openTrades := updateAssoc st.openTrades mint trade2 }
      -- `!trade.migrated` in the source reads the in-place-mutated object, whose
      -- `migrated` field has not been assigned yet, i.e. the original value:
      if d.complete && !trade.migrated then
        let trade3 := { trade2 with migrated := true }
        let st2 := { st1 with openTrades := updateAssoc st1.openTrades mint trade3 }
        let (closed, st3) := closeTrade now mint trade2.currentMcap "graduated" st2
        (st3, { pnlAlert := doAlert, gradAlert := true, closeAlert := closed.isSome,
                closed := closed })
      else
        (st1, { pnlAlert := doAlert })

/-- A sequence of refreshes of one mint, collecting the dispatched actions. -/
def runRefresh (now : ℚ) (mint : Mint) (st : BotState) :
    List (Option Coin) → BotState × List RefreshActions
  | [] => (st, [])
  | d :: ds =>
    let (st1, a) := updateOne now st mint d
    let (st2, as') := runRefresh now mint st1 ds
    (st2, a :: as')

/-! ## Signature resolver (src/unnamed/part_000 lines 105–124) -/

/-- Known infrastructure/system account identities skipped by the mint
heuristic (src/unnamed/part_000 lines 74–81). -/
def SYSTEM_ACCOUNTS : List String :=
  ["11111111111111111111111111111111",
   "TokenkegQfeZyiNwAJbNbGKPFXCWuBvf9Ss623VQ5DA",
   "ATokenGPvbdGVxr1b2hvZbsiqW5xWH25efTNsLJe8bv",
   "SysvarRent111111111111111111111111111111111",
   "SysvarC1ock11111111111111111111111111111111",
   "6EF8rrecthR5Dkzon8Nwu78hRvfCKubJ14M5uBEwF6P"]

/-- Outcome of one `rpcCall("getTransaction", …)`:
`ok none` — the call succeeded with a null transaction (or missing/empty
account-key list, which the source treats the same way);
`ok (some keys)` — the normalised account-key strings of the transaction;
`err rl` — the call threw, with `rl` the source's rate-limit classification
(`e.message` contains "Too many requests" or "429"). -/
inductive RpcOutcome where
  | ok (keys : Option (List String))
  | err (rateLimit : Bool)
  deriving Repr, DecidableEq

/-- The account-key scan: the first key that is not a known system account and
has length at least 32. -/
def extractMint (keys : List String) : Option String :=
  keys.find? (fun k => !(SYSTEM_ACCOUNTS.contains k) && decide (32 ≤ k.length))

/-- Attempt loop of `getMintFromSignature`, from attempt number `attempt` with
`rem` loop iterations left (`rem = retries + 1 - attempt` at every call).
The external RPC is the oracle `attempt ↦ outcome`.  Returns the resolved
mint (`none` = "could not resolve") and the list of backoff sleeps (ms)
performed, in order. -/
def getMintGo (oracle : ℕ → RpcOutcome) (retries : ℕ) :
    ℕ → ℕ → Option String × List ℕ
  | 0, _ => (none, [])
  | rem + 1, attempt =>
    match oracle attempt with
    | .ok keys => (keys.bind extractMint, [])
    | .err rl =>
      if rl && decide (attempt < retries) then
        let (res, sl) := getMintGo oracle retries rem (attempt + 1)
        (res, attempt * 2000 :: sl)
      else (none, [])

/-- Source `getMintFromSignature(signature, retries)` (src/unnamed/part_000 lines
105–124): the `for (attempt = 1; attempt <= retries; …)` loop.  Every `throw`
of the RPC call is caught inside the loop, so the function always returns an
`Option` — it never propagates an exception to its caller. -/
def getMintFromSignature (oracle : ℕ → RpcOutcome) (retries : ℕ) :
    Option String × List ℕ :=
  getMintGo oracle retries retries 1

/-! ## Ingestion queue (src/unnamed/part_000 lines 83–103) -/

/-- One queued raw event. -/
structure SigEntry where
  sig : String
  enqueuedAt : ℚ
  deriving Repr, DecidableEq

/-- The signature queue with its single-flight drain guard. -/
structure SigQueue where
  queue : List SigEntry := []
  busy : Bool := false
  deriving Repr, DecidableEq

/-- Source `enqueueSig` (src/unnamed/part_000 lines 86–90): no-op when an entry with
the same signature is already queued, otherwise append `{sig, enqueuedAt:
now}`.  (The `if (!queueBusy) processQueue()` kick-off starts the drain; it
does not change the queue contents.) -/
def enqueueSig (sig : String) (now : ℚ) (qs : SigQueue) : SigQueue :=
  if qs.queue.any (fun item => item.sig == sig) then qs
  else { qs with queue := qs.queue ++ [⟨sig, now⟩] }

/-- The resolution attempts a drain of the whole queue performs
(src/unnamed/part_000 lines 92–103): entries are shifted in FIFO order, each
at most once; an entry older than 90 s is dropped without resolution, every
other entry gets exactly one `getMintFromSignature` call.  `now` abstracts the
`Date.now()` observed while draining. -/
def drainAttempts (now : ℚ) (qs : SigQueue) : List String :=
  (qs.queue.filter (fun item => !(decide (90000 < now - item.enqueuedAt)))).map (fun i => i.sig)

/-! ## Token handler and event traces (src/bot.js lines 1144–1182) -/

/-- What one `handleMint` call did beyond bookkeeping: whether the token was
scored, whether the alert pipeline (`analyzeToken` → `sendTokenAlert`) was
dispatched, and whether a paper trade was opened. -/
structure HandleActions where
  scored : Bool := false
  alerted : Bool := false
  opened : Bool := false
  deriving Repr, DecidableEq

/-- The fallback token object built when the metadata fetch fails. -/
def fallbackCoin (mint : Mint) : Coin :=
  { mint := mint, symbol := some "???", name := some "Unknown" }

/-- Source `handleMint` (src/bot.js lines 1144–1182).  `fetched` is the result of the
external `fetchTokenMeta(mint)` call (`none` = fetch failed). -/
def handleMint (now : ℚ) (mint : Mint) (fetched : Option Coin) (st : BotState) :
    BotState × HandleActions :=
  if mint = 0 then (st, {})
  else if st.seenMints.contains mint then (st, {})
  else
    let st1 := { st with
      seenMints := mint :: st.seenMints
      stats := { st.stats with
        tokensReceived := st.stats.tokensReceived + 1
        lastEventAt := some now } }
    if st1.config.paused then (st1, {})
    else
      let tokenData := fetched.getD (fallbackCoin mint)
      if (fetched.map Coin.complete).getD false then (st1, {})
      else
        let token := scoreToken now tokenData
        let shouldAlert :=
          (token.verdict == Verdict.BUY && decide (st1.config.minScore ≤ token.score))
          || (token.verdict == Verdict.WATCH && st1.config.alertWatch)
        if !shouldAlert then (saveStateTrim st1, { scored := true })
        else
          let (opened, st2) :=
            if st1.config.paperTrading && token.verdict == Verdict.BUY then
              let (tr, s) := openTrade now token st1
              (tr.isSome, s)
            else (false, st1)
          (saveStateTrim st2, { scored := true, alerted := true, opened := opened })

/-- System-level events for dedup/pause traces: a mint delivery (with the
metadata-fetch outcome it would observe), and the `/pause` and `/resume`
commands (src/bot.js lines 1419–1420), which flip the flag and `saveState()`. -/
inductive Event where
  | deliver (mint : Mint) (now : ℚ) (fetched : Option Coin)
  | pauseCmd
  | resumeCmd
  deriving Repr, DecidableEq

/-- Apply one event; deliveries log the mint together with what was done. -/
def stepEvent (st : BotState) : Event → BotState × Option (Mint × HandleActions)
  | .deliver m now f =>
    let (st', a) := handleMint now m f st
    (st', some (m, a))
  | .pauseCmd => (saveStateTrim { st with config := { st.config with paused := true } }, none)
  | .resumeCmd => (saveStateTrim { st with config := { st.config with paused := false } }, none)

/-- Run a trace of events, collecting the delivery log. -/
def runTrace (st : BotState) : List Event → BotState × List (Mint × HandleActions)
  | [] => (st, [])
  | e :: rest =>
    let (st1, a) := stepEvent st e
    let (st2, log) := runTrace st1 rest
    (st2, a.toList ++ log)

/-! ## Association-list and refresh-step lemmas -/

theorem lookup_updateAssoc (l : List (Mint × Trade)) (k : Mint) (v : Trade) :
    (updateAssoc l k v).lookup k = (l.lookup k).map (fun _ => v) := by
  induction l with
  | nil => rfl
  | cons e t ih =>
    obtain ⟨a, b⟩ := e
    by_cases h : a = k
    · subst h
      show (((if a = a then (a, v) else (a, b)) :: updateAssoc t a v).lookup a)
          = (((a, b) :: t).lookup a).map (fun _ => v)
      rw [if_pos rfl]
      simp [List.lookup]
    · show (((if a = k then (k, v) else (a, b)) :: updateAssoc t k v).lookup k)
          = (((a, b) :: t).lookup k).map (fun _ => v)
      rw [if_neg h]
      have hb : (k == a) = false := by
        simp only [beq_eq_false_iff_ne, ne_eq]
        exact fun hk => h hk.symm
      simp [List.lookup, hb, ih]

theorem lookup_updateAssoc_some (l : List (Mint × Trade)) (k : Mint) (v b : Trade)
    (h : l.lookup k = some b) : (updateAssoc l k v).lookup k = some v := by
  rw [lookup_updateAssoc, h]; rfl

theorem lookup_filter_ne (l : List (Mint × Trade)) (k : Mint) :
    (l.filter (fun e => e.1 != k)).lookup k = none := by
  induction l with
  | nil => rfl
  | cons e t ih =>
    obtain ⟨a, b⟩ := e
    by_cases h : a = k
    · subst h
      simp only [List.filter, bne_self_eq_false]
      exact ih
    · have hkeep : ((a, b).1 != k) = true := by simpa [bne_iff_ne]
      have hb : (k == a) = false := by
        simp only [beq_eq_false_iff_ne, ne_eq]
        exact fun hk => h hk.symm
      simp only [List.filter, hkeep, List.lookup, hb]
      exact ih

theorem updateOne_absent (now : ℚ) (st : BotState) (mint : Mint) (d : Option Coin)
    (h : st.openTrades.lookup mint = none) : updateOne now st mint d = (st, {}) := by
  simp [updateOne, h]

theorem closeTrade_absent (now : ℚ) (mint : Mint) (m : ℚ) (r : String) (st : BotState)
    (h : st.openTrades.lookup mint = none) : closeTrade now mint m r st = (none, st) := by
  simp [closeTrade, h]

/-- Function `calcPnL` reads only `entryMcap` and `solAmount`. -/
theorem calcPnL_congr (t₁ t₂ : Trade) (m : ℚ) (he : t₁.entryMcap = t₂.entryMcap)
    (hs : t₁.solAmount = t₂.solAmount) : calcPnL t₁ m = calcPnL t₂ m := by
  simp [calcPnL, he, hs]

theorem refreshTrade_currentMcap (tr : Trade) (d : Coin) :
    (refreshTrade tr d).1.currentMcap = jsOrQ d.usd_market_cap tr.currentMcap := by
  by_cases hA : (jsNeqZ (jsStepOf (calcPnL { tr with
      currentMcap := jsOrQ d.usd_market_cap tr.currentMcap
      peakMcap := if tr.peakMcap < jsOrQ d.usd_market_cap tr.currentMcap
        then jsOrQ d.usd_market_cap tr.currentMcap else tr.peakMcap }
      (jsOrQ d.usd_market_cap tr.currentMcap)).pnlPct) (some 0)
      && jsNeqZ (jsStepOf (calcPnL { tr with
      currentMcap := jsOrQ d.usd_market_cap tr.currentMcap
      peakMcap := if tr.peakMcap < jsOrQ d.usd_market_cap tr.currentMcap
        then jsOrQ d.usd_market_cap tr.currentMcap else tr.peakMcap }
      (jsOrQ d.usd_market_cap tr.currentMcap)).pnlPct) tr.lastAlertStep) = true <;>
    simp [refreshTrade, hA]

theorem refreshTrade_peakMcap (tr : Trade) (d : Coin) :
    (refreshTrade tr d).1.peakMcap =
      (if tr.peakMcap < jsOrQ d.usd_market_cap tr.currentMcap
       then jsOrQ d.usd_market_cap tr.currentMcap else tr.peakMcap) := by
  by_cases hA : (jsNeqZ (jsStepOf (calcPnL { tr with
      currentMcap := jsOrQ d.usd_market_cap tr.currentMcap
      peakMcap := if tr.peakMcap < jsOrQ d.usd_market_cap tr.currentMcap
        then jsOrQ d.usd_market_cap tr.currentMcap else tr.peakMcap }
      (jsOrQ d.usd_market_cap tr.currentMcap)).pnlPct) (some 0)
      && jsNeqZ (jsStepOf (calcPnL { tr with
      currentMcap := jsOrQ d.usd_market_cap tr.currentMcap
      peakMcap := if tr.peakMcap < jsOrQ d.usd_market_cap tr.currentMcap
        then jsOrQ d.usd_market_cap tr.currentMcap else tr.peakMcap }
      (jsOrQ d.usd_market_cap tr.currentMcap)).pnlPct) tr.lastAlertStep) = true <;>
    simp [refreshTrade, hA]

theorem refreshTrade_entryMcap (tr : Trade) (d : Coin) :
    (refreshTrade tr d).1.entryMcap = tr.entryMcap := by
  by_cases hA : (jsNeqZ (jsStepOf (calcPnL { tr with
      currentMcap := jsOrQ d.usd_market_cap tr.currentMcap
      peakMcap := if tr.peakMcap < jsOrQ d.usd_market_cap tr.currentMcap
        then jsOrQ d.usd_market_cap tr.currentMcap else tr.peakMcap }
      (jsOrQ d.usd_market_cap tr.currentMcap)).pnlPct) (some 0)
      && jsNeqZ (jsStepOf (calcPnL { tr with
      currentMcap := jsOrQ d.usd_market_cap tr.currentMcap
      peakMcap := if tr.peakMcap < jsOrQ d.usd_market_cap tr.currentMcap
        then jsOrQ d.usd_market_cap tr.currentMcap else tr.peakMcap }
      (jsOrQ d.usd_market_cap tr.currentMcap)).pnlPct) tr.lastAlertStep) = true <;>
    simp [refreshTrade, hA]

theorem refreshTrade_solAmount (tr : Trade) (d : Coin) :
    (refreshTrade tr d).1.solAmount = tr.solAmount := by
  by_cases hA : (jsNeqZ (jsStepOf (calcPnL { tr with
      currentMcap := jsOrQ d.usd_market_cap tr.currentMcap
      peakMcap := if tr.peakMcap < jsOrQ d.usd_market_cap tr.currentMcap
        then jsOrQ d.usd_market_cap tr.currentMcap else tr.peakMcap }
      (jsOrQ d.usd_market_cap tr.currentMcap)).pnlPct) (some 0)
      && jsNeqZ (jsStepOf (calcPnL { tr with
      currentMcap := jsOrQ d.usd_market_cap tr.currentMcap
      peakMcap := if tr.peakMcap < jsOrQ d.usd_market_cap tr.currentMcap
        then jsOrQ d.usd_market_cap tr.currentMcap else tr.peakMcap }
      (jsOrQ d.usd_market_cap tr.currentMcap)).pnlPct) tr.lastAlertStep) = true <;>
    simp [refreshTrade, hA]

theorem refreshTrade_migrated (tr : Trade) (d : Coin) :
    (refreshTrade tr d).1.migrated = tr.migrated := by
  by_cases hA : (jsNeqZ (jsStepOf (calcPnL { tr with
      currentMcap := jsOrQ d.usd_market_cap tr.currentMcap
      peakMcap := if tr.peakMcap < jsOrQ d.usd_market_cap tr.currentMcap
        then jsOrQ d.usd_market_cap tr.currentMcap else tr.peakMcap }
      (jsOrQ d.usd_market_cap tr.currentMcap)).pnlPct) (some 0)
      && jsNeqZ (jsStepOf (calcPnL { tr with
      currentMcap := jsOrQ d.usd_market_cap tr.currentMcap
      peakMcap := if tr.peakMcap < jsOrQ d.usd_market_cap tr.currentMcap
        then jsOrQ d.usd_market_cap tr.currentMcap else tr.peakMcap }
      (jsOrQ d.usd_market_cap tr.currentMcap)).pnlPct) tr.lastAlertStep) = true <;>
    simp [refreshTrade, hA]

/-- The P&L-alert flag of a refresh, in terms of the original trade (the
mutations before the alert check change neither `entryMcap`, `solAmount` nor
`lastAlertStep`). -/
theorem refreshTrade_alert (tr : Trade) (d : Coin) :
    (refreshTrade tr d).2 =
      (jsNeqZ (jsStepOf (calcPnL tr (jsOrQ d.usd_market_cap tr.currentMcap)).pnlPct) (some 0)
       && jsNeqZ (jsStepOf (calcPnL tr (jsOrQ d.usd_market_cap tr.currentMcap)).pnlPct)
            tr.lastAlertStep) := by
  have hc : calcPnL { tr with
      currentMcap := jsOrQ d.usd_market_cap tr.currentMcap
      peakMcap := if tr.peakMcap < jsOrQ d.usd_market_cap tr.currentMcap
        then jsOrQ d.usd_market_cap tr.currentMcap else tr.peakMcap }
      (jsOrQ d.usd_market_cap tr.currentMcap)
      = calcPnL tr (jsOrQ d.usd_market_cap tr.currentMcap) := calcPnL_congr _ _ _ rfl rfl
  simp [refreshTrade, hc]

/-- The `lastAlertStep` after a refresh: the new step when an alert fired,
unchanged otherwise. -/
theorem refreshTrade_lastAlertStep (tr : Trade) (d : Coin) :
    (refreshTrade tr d).1.lastAlertStep =
      (if (refreshTrade tr d).2 = true
       then jsStepOf (calcPnL tr (jsOrQ d.usd_market_cap tr.currentMcap)).pnlPct
       else tr.lastAlertStep) := by
  have hc : calcPnL { tr with
      currentMcap := jsOrQ d.usd_market_cap tr.currentMcap
      peakMcap := if tr.peakMcap < jsOrQ d.usd_market_cap tr.currentMcap
        then jsOrQ d.usd_market_cap tr.currentMcap else tr.peakMcap }
      (jsOrQ d.usd_market_cap tr.currentMcap)
      = calcPnL tr (jsOrQ d.usd_market_cap tr.currentMcap) := calcPnL_congr _ _ _ rfl rfl
  by_cases hA : (jsNeqZ (jsStepOf (calcPnL tr
      (jsOrQ d.usd_market_cap tr.currentMcap)).pnlPct) (some 0)
      && jsNeqZ (jsStepOf (calcPnL tr (jsOrQ d.usd_market_cap tr.currentMcap)).pnlPct)
        tr.lastAlertStep) = true <;>
    simp [refreshTrade, hc, hA]

/-- Explicit shape of one `updatePrices` iteration on a present trade. -/
theorem updateOne_present (now : ℚ) (st : BotState) (mint : Mint) (tr : Trade) (d : Coin)
    (h : st.openTrades.lookup mint = some tr) :
    updateOne now st mint (some d) =
      (let t2 := (refreshTrade tr d).1
       if d.complete && !tr.migrated then
         let trade3 : Trade := { t2 with migrated := true }
         let closed : ClosedTrade := {
           trade := trade3
           exitMcap := t2.currentMcap
           exitTime := now
           durationMs := now - t2.entryTime
           pnlSOL := (calcPnL trade3 t2.currentMcap).pnlSOL
           pnlUSD := (calcPnL trade3 t2.currentMcap).pnlUSD
           pnlPct := (calcPnL trade3 t2.currentMcap).pnlPct
           reason := "graduated" }
         (saveStateTrim { st with
            closedTrades := closed :: st.closedTrades
            openTrades :=
              (updateAssoc (updateAssoc st.openTrades mint t2) mint trade3).filter
                (fun e => e.1 != mint) }
          , { pnlAlert := (refreshTrade tr d).2, gradAlert := true, closeAlert := true,
              closed := some closed })
       else
         ({ st with openTrades := updateAssoc st.openTrades mint t2 },
          { pnlAlert := (refreshTrade tr d).2 })) := by
  have h2 : ∀ v : Trade,
      (updateAssoc (updateAssoc st.openTrades mint v) mint
        { v with migrated := true }).lookup mint = some { v with migrated := true } :=
    fun v => lookup_updateAssoc_some _ _ _ _ (lookup_updateAssoc_some _ _ _ _ h)
  by_cases hg : (d.complete && !tr.migrated) = true <;>
    simp [updateOne, h, closeTrade, h2, hg]

/-! ## Claim theorems -/

/-- C1: for every telemetry input, `scoreToken` yields a score in
`[0, 100]`, and the verdict is the pure function of the score given by the
fixed thresholds: BUY when `score ≥ 68`, WATCH when `45 ≤ score < 68`,
SKIP otherwise. -/
theorem scoreToken_range_and_verdict (now : ℚ) (coin : Coin) :
    0 ≤ (scoreToken now coin).score ∧ (scoreToken now coin).score ≤ 100 ∧
    (scoreToken now coin).verdict =
      (if 68 ≤ (scoreToken now coin).score then Verdict.BUY
       else if 45 ≤ (scoreToken now coin).score then Verdict.WATCH
       else Verdict.SKIP) :=
  ⟨le_max_left 0 _, max_le (by norm_num) (min_le_left 100 _), rfl⟩

/-- The telemetry of claim C6: `solInCurve = 10` (raw reserves `10 × 10⁹`),
age 30 s (creation 30 000 ms before `now = 1 000 000`), Twitter link, 50
replies, king-of-the-hill featured flag; all other fields absent/false. -/
def c6coin : Coin :=
  { mint := 77
    virtual_sol_reserves := some 10000000000
    created_timestamp := some 970000
    twitter := true
    reply_count := some 50
    is_currently_king_of_the_hill := true }

/-- C6: on the scenario telemetry, `scoreToken` computes
`solInCurve = 10`, `ageSeconds = 30`, `velocitySOL = 20`, the velocity
component caps at 28, and the total score is `28+8+12+8+14+5 = 75` with
verdict BUY. -/
theorem scoreToken_c6_scenario :
    (scoreToken 1000000 c6coin).solInCurve = 10 ∧
    (scoreToken 1000000 c6coin).ageSeconds = 30 ∧
    (scoreToken 1000000 c6coin).velocitySOL = 20 ∧
    min (28 : ℚ) ((scoreToken 1000000 c6coin).velocitySOL * 6) = 28 ∧
    (scoreToken 1000000 c6coin).score = 75 ∧
    (scoreToken 1000000 c6coin).verdict = Verdict.BUY := by
  norm_num [scoreToken, c6coin, jsToFixed, jsOrQ, jsRound, GRADUATION_SOL,
    WHALE_SOL_THRESH, round_eq]

/-- C2: `openTrade` rejects — creating nothing and leaving the state
untouched — when the number of open trades is at least the cap of 20; on an
identity that already has an open trade it is an idempotent no-op returning
the state unchanged (no trade fields modified, no counter incremented); and
it preserves key-uniqueness of the open-trades map, so at most one open trade
exists per identity. -/
theorem not_mem_keys_of_lookup_none (l : List (Mint × Trade)) (k : Mint)
    (h : l.lookup k = none) : k ∉ l.map Prod.fst := by
  induction l with
  | nil => simp
  | cons e t ih =>
    obtain ⟨a, b⟩ := e
    by_cases hk : (k == a) = true
    · simp [List.lookup, hk] at h
    · have hk' : (k == a) = false := by simpa using hk
      have h' : t.lookup k = none := by simpa [List.lookup, hk'] using h
      have ha : ¬ k = a := by simpa using hk'
      simp [ha, ih h']

theorem openTrade_cap_noop_unique (now : ℚ) (tok : ScoreResult) (st : BotState) :
    (MAX_OPEN_TRADES ≤ st.openTrades.length → openTrade now tok st = (none, st)) ∧
    ((st.openTrades.lookup tok.mint).isSome = true → openTrade now tok st = (none, st)) ∧
    ((st.openTrades.map Prod.fst).Nodup →
      ((openTrade now tok st).2.openTrades.map Prod.fst).Nodup) := by
  refine ⟨fun h => by simp [openTrade, h], fun h => ?_, fun h => ?_⟩
  · by_cases hcap : MAX_OPEN_TRADES ≤ st.openTrades.length
    · simp [openTrade, hcap]
    · simp [openTrade, hcap, h]
  · by_cases hcap : MAX_OPEN_TRADES ≤ st.openTrades.length
    · simpa [openTrade, hcap] using h
    · cases hl : st.openTrades.lookup tok.mint with
      | some b => simpa [openTrade, hcap, hl] using h
      | none =>
        have hmem := not_mem_keys_of_lookup_none _ _ hl
        simp only [openTrade, if_neg hcap, hl, Option.isSome_none, Bool.false_eq_true,
          if_false, saveStateTrim]
        simp [List.nodup_append, h, hmem]

/-- Concrete witness state for C2: twenty open trades with distinct mints
`1…20` (so both the cap rejection and the already-open no-op fire), keyed
uniquely. -/
def wTrade : Trade :=
  { mint := 1, symbol := "T", name := "T", entryMcap := 100, entryBonding := 0,
    currentMcap := 100, peakMcap := 100, solAmount := 1, entryTime := 0,
    score := 70, lastAlertStep := some 0, migrated := false }

def wTok : ScoreResult :=
  { mint := 1, symbol := "T", name := "T", solInCurve := 10, bondingPct := 0,
    mcapUSD := 100, velocitySOL := 1, ageSeconds := 30, replyCount := 0,
    hasTwitter := false, hasTelegram := false, hasWebsite := false,
    isKingOfHill := false, complete := false, whaleAlert := false,
    score := 70, verdict := .BUY }

def wState : BotState :=
  { openTrades := (List.range MAX_OPEN_TRADES).map (fun i => (i + 1, wTrade)) }

theorem openTrade_cap_noop_unique_witness :
    openTrade 0 wTok wState = (none, wState) ∧
    openTrade 0 wTok wState = (none, wState) ∧
    ((openTrade 0 wTok wState).2.openTrades.map Prod.fst).Nodup :=
  ⟨(openTrade_cap_noop_unique 0 wTok wState).1 (by decide),
   (openTrade_cap_noop_unique 0 wTok wState).2.1 (by decide),
   (openTrade_cap_noop_unique 0 wTok wState).2.2 (by decide)⟩

/-- C9: `calcPnL` divides the given market cap by `trade.entryMcap` with
no zero guard: with a positive `entryMcap` every P&L field is finite
(`isSome`), but the precondition is not enforced by `openTrade` — it creates
the trade with `entryMcap := token.mcapUSD`, which `scoreToken` defaults to
`0` when `usd_market_cap` is absent — and a trade whose `entryMcap` is `0`
yields non-finite (`none`) `pnlSOL`, `pnlUSD` and `pnlPct`. -/
theorem calcPnL_zero_entry_unguarded (tr₁ tr₂ : Trade) (m₁ m₂ now : ℚ) (coin : Coin)
    (tok : ScoreResult) (st : BotState) :
    (0 < tr₁.entryMcap →
      (calcPnL tr₁ m₁).pnlSOL.isSome = true ∧ (calcPnL tr₁ m₁).pnlUSD.isSome = true ∧
        (calcPnL tr₁ m₁).pnlPct.isSome = true) ∧
    (coin.usd_market_cap = none → (scoreToken now coin).mcapUSD = 0) ∧
    (st.openTrades.length < MAX_OPEN_TRADES → st.openTrades.lookup tok.mint = none →
      ∃ tr', (openTrade now tok st).1 = some tr' ∧ tr'.entryMcap = tok.mcapUSD) ∧
    (tr₂.entryMcap = 0 →
      (calcPnL tr₂ m₂).pnlSOL = none ∧ (calcPnL tr₂ m₂).pnlUSD = none ∧
        (calcPnL tr₂ m₂).pnlPct = none) := by
  refine ⟨fun h => ?_, fun h => ?_, fun hcap hnone => ?_, fun h => ?_⟩
  · have hne : tr₁.entryMcap ≠ 0 := ne_of_gt h
    simp [calcPnL, jsDiv, hne]
  · simp [scoreToken, jsOrQ, h]
  · have hcap' : ¬ MAX_OPEN_TRADES ≤ st.openTrades.length := not_le.mpr hcap
    refine ⟨Trade.mk tok.mint tok.symbol tok.name tok.mcapUSD tok.bondingPct
      tok.mcapUSD tok.mcapUSD st.config.tradeAmount now tok.score (some 0) false,
      ?_, rfl⟩
    simp [openTrade, hcap', hnone]
  · simp [calcPnL, jsDiv, h]

def wTradeZero : Trade := { wTrade with entryMcap := 0 }

def wCoinNoMcap : Coin := { mint := 9 }

theorem calcPnL_zero_entry_unguarded_witness :
    ((calcPnL wTrade 150).pnlSOL.isSome = true ∧ (calcPnL wTrade 150).pnlUSD.isSome = true ∧
      (calcPnL wTrade 150).pnlPct.isSome = true) ∧
    ((scoreToken 0 wCoinNoMcap).mcapUSD = 0) ∧
    (∃ tr', (openTrade 0 wTok ({} : BotState)).1 = some tr' ∧
      tr'.entryMcap = wTok.mcapUSD) ∧
    ((calcPnL wTradeZero 150).pnlSOL = none ∧ (calcPnL wTradeZero 150).pnlUSD = none ∧
      (calcPnL wTradeZero 150).pnlPct = none) :=
  ⟨(calcPnL_zero_entry_unguarded wTrade wTradeZero 150 150 0 wCoinNoMcap wTok {}).1
      (by norm_num [wTrade]),
   (calcPnL_zero_entry_unguarded wTrade wTradeZero 150 150 0 wCoinNoMcap wTok {}).2.1 rfl,
   (calcPnL_zero_entry_unguarded wTrade wTradeZero 150 150 0 wCoinNoMcap wTok {}).2.2.1
      (by decide) rfl,
   (calcPnL_zero_entry_unguarded wTrade wTradeZero 150 150 0 wCoinNoMcap wTok {}).2.2.2 rfl⟩

/-- C8: `enqueueSig` is idempotent on queued signatures: enqueueing a
signature already in the queue is a no-op, so enqueueing the same signature
twice before the queue drains results in exactly one resolution attempt for
that signature during the drain. -/
theorem enqueueSig_idempotent_single_attempt (s : String) (t₁ t₂ now : ℚ)
    (qs₁ qs₂ : SigQueue) :
    (qs₁.queue.any (fun item => item.sig == s) = true → enqueueSig s t₁ qs₁ = qs₁) ∧
    (enqueueSig s t₂ (enqueueSig s t₁ qs₂) = enqueueSig s t₁ qs₂) ∧
    ((∀ e ∈ qs₂.queue, e.sig ≠ s) → ¬(90000 < now - t₁) →
      (drainAttempts now (enqueueSig s t₂ (enqueueSig s t₁ qs₂))).count s = 1) := by
  have hnoop : ∀ (t : ℚ) (qs : SigQueue),
      qs.queue.any (fun item => item.sig == s) = true → enqueueSig s t qs = qs :=
    fun t qs h => by simp [enqueueSig, h]
  have hsnd : enqueueSig s t₂ (enqueueSig s t₁ qs₂) = enqueueSig s t₁ qs₂ := by
    by_cases h : qs₂.queue.any (fun item => item.sig == s) = true
    · rw [hnoop t₁ qs₂ h, hnoop t₂ qs₂ h]
    · have happ : enqueueSig s t₁ qs₂ = { qs₂ with queue := qs₂.queue ++ [⟨s, t₁⟩] } := by
        simp [enqueueSig, h]
      apply hnoop
      rw [happ]
      simp
  refine ⟨hnoop t₁ qs₁, hsnd, fun hfresh hstale => ?_⟩
  rw [hsnd]
  have h : ¬ qs₂.queue.any (fun item => item.sig == s) = true := by
    simp only [List.any_eq_true, not_exists, not_and]
    intro e he
    simp [hfresh e he]
  have happ : enqueueSig s t₁ qs₂ = { qs₂ with queue := qs₂.queue ++ [⟨s, t₁⟩] } := by
    simp [enqueueSig, h]
  rw [happ]
  have hcnt0 : ((qs₂.queue.filter
      (fun item => !(decide (90000 < now - item.enqueuedAt)))).map (fun i => i.sig)).count s
      = 0 := by
    rw [List.count_eq_zero]
    intro hmem
    obtain ⟨e, hef, hes⟩ := List.mem_map.mp hmem
    exact hfresh e (List.mem_of_mem_filter hef) hes
  simp only [drainAttempts, List.filter_append, List.map_append, List.count_append, hcnt0]
  simp [hstale]

theorem enqueueSig_idempotent_single_attempt_witness :
    (enqueueSig "sig" 0 ⟨[⟨"sig", 5⟩], false⟩ = ⟨[⟨"sig", 5⟩], false⟩) ∧
    (enqueueSig "sig" 1 (enqueueSig "sig" 0 ({} : SigQueue))
       = enqueueSig "sig" 0 ({} : SigQueue)) ∧
    ((drainAttempts 1000 (enqueueSig "sig" 1 (enqueueSig "sig" 0 ({} : SigQueue)))).count "sig"
       = 1) :=
  ⟨(enqueueSig_idempotent_single_attempt "sig" 0 1 1000 ⟨[⟨"sig", 5⟩], false⟩ {}).1
      (by decide),
   (enqueueSig_idempotent_single_attempt "sig" 0 1 1000 ⟨[⟨"sig", 5⟩], false⟩ {}).2.1,
   (enqueueSig_idempotent_single_attempt "sig" 0 1 1000 ⟨[⟨"sig", 5⟩], false⟩ {}).2.2
      (by simp) (by norm_num)⟩

/-- Characterisation of the resolver's attempt loop from any attempt number:
there is a deciding attempt `e` such that every earlier attempt (from
`attempt` on) hit a rate-limit error and slept its linear backoff
`a × 2000` ms, the loop never continues past a non-rate-limit outcome or past
`retries`, and the result is determined by the outcome of attempt `e`. -/
theorem getMintGo_spec (oracle : ℕ → RpcOutcome) (retries : ℕ) :
    ∀ rem attempt, 1 ≤ attempt → attempt ≤ retries → attempt + rem = retries + 1 →
    ∃ e, attempt ≤ e ∧ e ≤ retries ∧
      (∀ a, attempt ≤ a → a < e → oracle a = .err true) ∧
      (oracle e = .err true → e = retries) ∧
      getMintGo oracle retries rem attempt =
        ((match oracle e with
          | .ok keys => keys.bind extractMint
          | .err _ => none),
         (List.range' attempt (e - attempt)).map (fun a => a * 2000)) := by
  intro rem
  induction rem with
  | zero => intro attempt h1 h2 h3; omega
  | succ n ih =>
    intro attempt h1 h2 h3
    cases ho : oracle attempt with
    | ok keys =>
      refine ⟨attempt, le_refl _, h2, fun a ha1 ha2 => absurd ha1 (by omega),
        fun hc => absurd (ho.symm.trans hc) (by simp), ?_⟩
      simp [getMintGo, ho]
    | err rl =>
      by_cases hcont : (rl && decide (attempt < retries)) = true
      · rw [Bool.and_eq_true] at hcont
        obtain ⟨hrl, hlt'⟩ := hcont
        have hlt : attempt < retries := of_decide_eq_true hlt'
        obtain ⟨e, he1, he2, he3, he4, he5⟩ :=
          ih (attempt + 1) (by omega) (by omega) (by omega)
        have hcont' : (rl && decide (attempt < retries)) = true := by
          simp [hrl, hlt]
        refine ⟨e, by omega, he2, fun a ha1 ha2 => ?_, he4, ?_⟩
        · rcases eq_or_lt_of_le ha1 with hq | hq
          · rw [← hq, ho, hrl]
          · exact he3 a (by omega) ha2
        · have hrange : List.range' attempt (e - attempt)
              = attempt :: List.range' (attempt + 1) (e - (attempt + 1)) := by
            have hn : e - attempt = (e - (attempt + 1)) + 1 := by omega
            rw [hn, List.range'_succ]
          simp [getMintGo, ho, hcont', he5, hrange]
      · have hstop : rl = true → ¬ attempt < retries := by
          intro hrl hlt
          exact hcont (by simp [hrl, hlt])
        refine ⟨attempt, le_refl _, h2, fun a ha1 ha2 => absurd ha1 (by omega),
          fun hc => ?_, ?_⟩
        · have hrl : rl = true := by
            have heq := ho.symm.trans hc
            injection heq
          have := hstop hrl
          omega
        · simp [getMintGo, ho, hcont]

/-- C7: for every RPC oracle and every `maxAttempts ≥ 1`,
`getMintFromSignature` (which catches every RPC exception inside the loop, so
it never throws to its caller and always yields an `Option`) retries after a
linearly increasing backoff of `attempt × 2 s` on a rate-limit error before
the last attempt, and returns `none` on any other failure, on a rate-limit
error at the last attempt, or when the transaction has no valid non-system
account key of length ≥ 32; the first deciding attempt's outcome determines
the result. -/
theorem getMintFromSignature_retry_backoff (oracle : ℕ → RpcOutcome) (retries : ℕ)
    (h : 1 ≤ retries) :
    ∃ e, 1 ≤ e ∧ e ≤ retries ∧
      (∀ a, 1 ≤ a → a < e → oracle a = .err true) ∧
      (oracle e = .err true → e = retries) ∧
      getMintFromSignature oracle retries =
        ((match oracle e with
          | .ok keys => keys.bind extractMint
          | .err _ => none),
         (List.range' 1 (e - 1)).map (fun a => a * 2000)) :=
  getMintGo_spec oracle retries retries 1 (le_refl 1) h (by omega)

/-- Oracle of the spec's retry scenario: a rate-limit failure on attempt 1,
then a transaction whose first non-system key of length ≥ 32 is a valid
mint. -/
def c7oracle : ℕ → RpcOutcome := fun a =>
  if a = 1 then .err true
  else .ok (some ["11111111111111111111111111111111", "AmintAddressThatIsLongEnough32ch"])

theorem getMintFromSignature_retry_backoff_witness :
    1 ≤ 3 ∧
    ∃ e, 1 ≤ e ∧ e ≤ 3 ∧
      (∀ a, 1 ≤ a → a < e → c7oracle a = .err true) ∧
      (c7oracle e = .err true → e = 3) ∧
      getMintFromSignature c7oracle 3 =
        ((match c7oracle e with
          | .ok keys => keys.bind extractMint
          | .err _ => none),
         (List.range' 1 (e - 1)).map (fun a => a * 2000)) :=
  ⟨by decide, getMintFromSignature_retry_backoff c7oracle 3 (by decide)⟩

theorem saveStateTrim_openTrades (st : BotState) :
    (saveStateTrim st).openTrades = st.openTrades := rfl

theorem saveStateTrim_config (st : BotState) :
    (saveStateTrim st).config = st.config := rfl

/-- A refresh of an absent identity leaves the state untouched and dispatches
nothing (`updatePrices` skips mints without an open trade). -/
theorem runRefresh_absent (now : ℚ) (mint : Mint) (ds : List (Option Coin)) (st : BotState)
    (h : st.openTrades.lookup mint = none) :
    runRefresh now mint st ds = (st, ds.map (fun _ => ({} : RefreshActions))) := by
  induction ds with
  | nil => rfl
  | cons d ds ih => simp [runRefresh, updateOne_absent now st mint d h, ih]

/-- One refresh step never lowers `peakMcap` of a trade that stays open. -/
theorem updateOne_peak_mono (now : ℚ) (st : BotState) (mint : Mint) (tr tr' : Trade)
    (d : Option Coin) (h : st.openTrades.lookup mint = some tr)
    (h' : (updateOne now st mint d).1.openTrades.lookup mint = some tr') :
    tr.peakMcap ≤ tr'.peakMcap := by
  cases d with
  | none =>
    have hid : updateOne now st mint none = (st, {}) := by simp [updateOne, h]
    rw [hid] at h'
    rw [h] at h'
    injection h' with h''
    rw [← h'']
  | some dc =>
    rw [updateOne_present now st mint tr dc h] at h'
    by_cases hg : (dc.complete && !tr.migrated) = true
    · rw [if_pos hg] at h'
      simp only [saveStateTrim] at h'
      simp [lookup_filter_ne] at h'
    · rw [if_neg hg] at h'
      rw [lookup_updateAssoc_some st.openTrades mint ((refreshTrade tr dc).1) tr h] at h'
      injection h' with h''
      rw [← h'', refreshTrade_peakMcap]
      by_cases hpk : tr.peakMcap < jsOrQ dc.usd_market_cap tr.currentMcap
      · rw [if_pos hpk]
        exact le_of_lt hpk
      · rw [if_neg hpk]

/-- Across any refresh sequence, `peakMcap` is monotone while the trade stays
open. -/
theorem runRefresh_peak_mono (now : ℚ) (mint : Mint) (ds : List (Option Coin)) :
    ∀ (st : BotState) (tr tr' : Trade),
    st.openTrades.lookup mint = some tr →
    (runRefresh now mint st ds).1.openTrades.lookup mint = some tr' →
    tr.peakMcap ≤ tr'.peakMcap := by
  induction ds with
  | nil =>
    intro st tr tr' h h'
    have : (runRefresh now mint st []).1 = st := rfl
    rw [this, h] at h'
    injection h' with h''
    rw [← h'']
  | cons d ds ih =>
    intro st tr tr' h h'
    have hstep : (runRefresh now mint st (d :: ds)).1
        = (runRefresh now mint (updateOne now st mint d).1 ds).1 := by
      simp [runRefresh]
    rw [hstep] at h'
    cases hm : (updateOne now st mint d).1.openTrades.lookup mint with
    | none =>
      have habs := runRefresh_absent now mint ds _ hm
      rw [habs] at h'
      simp [hm] at h'
    | some tm =>
      exact le_trans (updateOne_peak_mono now st mint tr tm d h hm) (ih _ tm tr' hm h')

/-- C5: for every open trade, `peakMcap` is a monotone high-water mark:
one refresh sets it to the maximum of the old peak and the observed market
cap (raised exactly when exceeded), and across any sequence of refreshes it
never decreases while the trade is open. -/
theorem updatePrices_peak_monotone (now : ℚ) (st : BotState) (mint : Mint) (tr : Trade)
    (d : Coin) (ds : List (Option Coin))
    (h : st.openTrades.lookup mint = some tr) :
    (∀ tr₁, (updateOne now st mint (some d)).1.openTrades.lookup mint = some tr₁ →
      tr₁.peakMcap = max tr.peakMcap (jsOrQ d.usd_market_cap tr.currentMcap)) ∧
    (∀ tr', (runRefresh now mint st ds).1.openTrades.lookup mint = some tr' →
      tr.peakMcap ≤ tr'.peakMcap) := by
  constructor
  · intro tr₁ h'
    rw [updateOne_present now st mint tr d h] at h'
    by_cases hg : (d.complete && !tr.migrated) = true
    · rw [if_pos hg] at h'
      simp only [saveStateTrim] at h'
      simp [lookup_filter_ne] at h'
    · rw [if_neg hg] at h'
      rw [lookup_updateAssoc_some st.openTrades mint ((refreshTrade tr d).1) tr h] at h'
      injection h' with h''
      rw [← h'', refreshTrade_peakMcap]
      rcases lt_or_le tr.peakMcap (jsOrQ d.usd_market_cap tr.currentMcap) with hpk | hpk
      · rw [if_pos hpk, max_eq_right (le_of_lt hpk)]
      · rw [if_neg (not_lt.mpr hpk), max_eq_left hpk]
  · exact fun tr' => runRefresh_peak_mono now mint ds st tr tr' h

def wCoinUp : Coin := { mint := 1, usd_market_cap := some 150 }

def wStateOne : BotState := { openTrades := [(1, wTrade)] }

theorem updatePrices_peak_monotone_witness :
    (∀ tr₁, (updateOne 0 wStateOne 1 (some wCoinUp)).1.openTrades.lookup 1 = some tr₁ →
      tr₁.peakMcap = max wTrade.peakMcap (jsOrQ wCoinUp.usd_market_cap wTrade.currentMcap)) ∧
    (∀ tr', (runRefresh 0 1 wStateOne [some wCoinUp]).1.openTrades.lookup 1 = some tr' →
      wTrade.peakMcap ≤ tr'.peakMcap) :=
  updatePrices_peak_monotone 0 wStateOne 1 wTrade wCoinUp [some wCoinUp] rfl

/-- The head of the closed-trades list survives `saveState`'s truncation to
500 entries. -/
theorem head_trim (c : ClosedTrade) (l : List ClosedTrade) :
    (if 500 < (c :: l).length then (c :: l).take 500 else c :: l).head? = some c := by
  by_cases h : 500 < (c :: l).length
  · rw [if_pos h, show (500 : ℕ) = 499 + 1 from rfl, List.take_succ_cons]
    rfl
  · rw [if_neg h]
    rfl

/-- C4: when a refresh observes `complete = true` for an open trade whose
`migrated` flag is `false`, the trade is marked migrated, the graduation
alert is dispatched, and the trade is unconditionally closed with reason
`"graduated"` (the closed record heads the closed list).  Graduation is
terminal: the identity is gone from the open-trades map, and any further
refresh or close of that identity leaves the ledger state unchanged. -/
theorem updatePrices_graduation_terminal (now now' now'' : ℚ) (st : BotState)
    (mint : Mint) (tr : Trade) (d : Coin) (d' : Option Coin) (m : ℚ) (r : String)
    (h : st.openTrades.lookup mint = some tr) (hmig : tr.migrated = false)
    (hc : d.complete = true) :
    (updateOne now st mint (some d)).2.gradAlert = true ∧
    (updateOne now st mint (some d)).2.closeAlert = true ∧
    (∃ c, (updateOne now st mint (some d)).2.closed = some c ∧
      c.reason = "graduated" ∧ c.trade.migrated = true ∧
      (updateOne now st mint (some d)).1.closedTrades.head? = some c) ∧
    (updateOne now st mint (some d)).1.openTrades.lookup mint = none ∧
    (updateOne now' (updateOne now st mint (some d)).1 mint d'
      = ((updateOne now st mint (some d)).1, {})) ∧
    (closeTrade now'' mint m r (updateOne now st mint (some d)).1
      = (none, (updateOne now st mint (some d)).1)) := by
  have hg : (d.complete && !tr.migrated) = true := by simp [hc, hmig]
  have hu := updateOne_present now st mint tr d h
  rw [if_pos hg] at hu
  have habs : (updateOne now st mint (some d)).1.openTrades.lookup mint = none := by
    rw [hu]
    simp only [saveStateTrim]
    simp [lookup_filter_ne]
  refine ⟨by rw [hu], by rw [hu], ?_, habs,
    updateOne_absent now' _ mint d' habs, closeTrade_absent now'' mint m r _ habs⟩
  refine ⟨_, by rw [hu], rfl, by simp, ?_⟩
  rw [hu]
  exact head_trim _ _

def wCoinGrad : Coin := { mint := 1, usd_market_cap := some 150, complete := true }

theorem updatePrices_graduation_terminal_witness :
    (updateOne 0 wStateOne 1 (some wCoinGrad)).2.gradAlert = true ∧
    (updateOne 0 wStateOne 1 (some wCoinGrad)).2.closeAlert = true ∧
    (∃ c, (updateOne 0 wStateOne 1 (some wCoinGrad)).2.closed = some c ∧
      c.reason = "graduated" ∧ c.trade.migrated = true ∧
      (updateOne 0 wStateOne 1 (some wCoinGrad)).1.closedTrades.head? = some c) ∧
    (updateOne 0 wStateOne 1 (some wCoinGrad)).1.openTrades.lookup 1 = none ∧
    (updateOne 2 (updateOne 0 wStateOne 1 (some wCoinGrad)).1 1 (some wCoinGrad)
      = ((updateOne 0 wStateOne 1 (some wCoinGrad)).1, {})) ∧
    (closeTrade 3 1 120 "manual" (updateOne 0 wStateOne 1 (some wCoinGrad)).1
      = (none, (updateOne 0 wStateOne 1 (some wCoinGrad)).1)) :=
  updatePrices_graduation_terminal 0 2 3 wStateOne 1 wTrade wCoinGrad
    (some wCoinGrad) 120 "manual" rfl rfl rfl

/-- The (finite-entry) pnl percentage a refresh computes for entry market cap
`E` and observed market cap `cm`: `(cm/E − 1) × 100` rounded to one decimal. -/
def pnlPctOf (E cm : ℚ) : ℚ := jsToFixed 1 ((cm / E - 1) * 100)

theorem calcPnL_pnlPct (tr : Trade) (m : ℚ) (he : tr.entryMcap ≠ 0) :
    (calcPnL tr m).pnlPct = some (pnlPctOf tr.entryMcap m) := by
  simp [calcPnL, jsDiv, he, pnlPctOf]

/-- The P&L alert of one mint's `updatePrices` iteration is exactly the
`refreshTrade` alert flag, whether or not the trade also graduates. -/
theorem updateOne_pnlAlert (now : ℚ) (st : BotState) (mint : Mint) (tr : Trade) (d : Coin)
    (h : st.openTrades.lookup mint = some tr) :
    (updateOne now st mint (some d)).2.pnlAlert = (refreshTrade tr d).2 := by
  rw [updateOne_present now st mint tr d h]
  by_cases hg : (d.complete && !tr.migrated) = true
  · simp [hg]
  · simp [hg]

/-- For a trade with nonzero entry market cap, a refresh fires a P&L alert
exactly when the discretised step of the new pnl percentage is nonzero and
differs from `lastAlertStep`. -/
theorem refreshTrade_alert_iff (tr : Trade) (d : Coin) (hne : tr.entryMcap ≠ 0) :
    (refreshTrade tr d).2 = true ↔
      (alertStep (pnlPctOf tr.entryMcap (jsOrQ d.usd_market_cap tr.currentMcap)) ≠ 0 ∧
       tr.lastAlertStep ≠
         some (alertStep (pnlPctOf tr.entryMcap (jsOrQ d.usd_market_cap tr.currentMcap)))) := by
  rw [refreshTrade_alert, calcPnL_pnlPct tr _ hne]
  cases hL : tr.lastAlertStep with
  | none => simp [jsStepOf, jsNeqZ, bne_iff_ne]
  | some y => simp [jsStepOf, jsNeqZ, bne_iff_ne, ne_comm]

/-- Predicate saying `ms` is a list of fetched coin records whose observed market caps all lie
in the `±25 %` band numbered `L` relative to entry market cap `E` (each with a
nonzero market-cap field, so no fallback occurs). -/
def inBand (E : ℚ) (L : ℤ) (ms : List Coin) : Prop :=
  ∀ c ∈ ms, ∃ mq, c.usd_market_cap = some mq ∧ mq ≠ 0 ∧
    alertStep (pnlPctOf E mq) = L

/-- While every observed market cap stays in the band of the last alert, a
refresh sequence fires no P&L alert and preserves entry and `lastAlertStep`. -/
theorem runRefresh_inBand (now : ℚ) (mint : Mint) (E : ℚ) (L : ℤ) (hE : E ≠ 0) :
    ∀ (ms : List Coin) (st : BotState),
    (∀ tr, st.openTrades.lookup mint = some tr →
      tr.entryMcap = E ∧ tr.lastAlertStep = some L) →
    inBand E L ms →
    (∀ a ∈ (runRefresh now mint st (ms.map some)).2, a.pnlAlert = false) ∧
    (∀ tr, (runRefresh now mint st (ms.map some)).1.openTrades.lookup mint = some tr →
      tr.entryMcap = E ∧ tr.lastAlertStep = some L) := by
  intro ms
  induction ms with
  | nil =>
    intro st hinv hband
    exact ⟨by simp [runRefresh], hinv⟩
  | cons c cs ih =>
    intro st hinv hband
    obtain ⟨mq, hmq, hmq0, hstep⟩ := hband c (List.mem_cons_self c cs)
    have hbandcs : inBand E L cs := fun c' hc' => hband c' (List.mem_cons_of_mem c hc')
    have hrun : runRefresh now mint st ((c :: cs).map some)
        = ((runRefresh now mint (updateOne now st mint (some c)).1 (cs.map some)).1,
           (updateOne now st mint (some c)).2
             :: (runRefresh now mint (updateOne now st mint (some c)).1 (cs.map some)).2) := by
      simp [runRefresh]
    cases hl : st.openTrades.lookup mint with
    | none =>
      have hid := updateOne_absent now st mint (some c) hl
      have hrec := ih st hinv hbandcs
      rw [hrun, hid]
      refine ⟨fun a ha => ?_, ?_⟩
      · rcases List.mem_cons.mp ha with h1 | h2
        · rw [h1]
        · exact hrec.1 a h2
      · exact hrec.2
    | some tr =>
      obtain ⟨hE', hL⟩ := hinv tr hl
      have hne : tr.entryMcap ≠ 0 := by rw [hE']; exact hE
      have hcm : jsOrQ c.usd_market_cap tr.currentMcap = mq := by
        simp [jsOrQ, hmq, hmq0]
      have hstep' : jsStepOf (calcPnL tr (jsOrQ c.usd_market_cap tr.currentMcap)).pnlPct
          = some L := by
        rw [hcm, calcPnL_pnlPct tr mq hne, hE']
        simp [jsStepOf, hstep]
      have halert : (refreshTrade tr c).2 = false := by
        rw [refreshTrade_alert, hstep', hL]
        simp [jsNeqZ]
      have hinv1 : ∀ tr'', (updateOne now st mint (some c)).1.openTrades.lookup mint
          = some tr'' → tr''.entryMcap = E ∧ tr''.lastAlertStep = some L := by
        intro tr'' h''
        rw [updateOne_present now st mint tr c hl] at h''
        by_cases hg : (c.complete && !tr.migrated) = true
        · rw [if_pos hg] at h''
          simp only [saveStateTrim] at h''
          simp [lookup_filter_ne] at h''
        · rw [if_neg hg] at h''
          rw [lookup_updateAssoc_some _ _ _ _ hl] at h''
          injection h'' with h3
          rw [← h3]
          refine ⟨by rw [refreshTrade_entryMcap]; exact hE', ?_⟩
          rw [refreshTrade_lastAlertStep, halert]
          simp [hL]
      have hrec := ih _ hinv1 hbandcs
      rw [hrun]
      refine ⟨fun a ha => ?_, hrec.2⟩
      rcases List.mem_cons.mp ha with h1 | h2
      · rw [h1, updateOne_pnlAlert now st mint tr c hl]
        exact halert
      · exact hrec.1 a h2

/-- C3: for an open trade with positive entry market cap: a refresh fires
a P&L alert exactly when the step `⌊|pnlPct|/25⌋ × sign(pnlPct)` is nonzero
and differs from `lastAlertStep`; refreshes whose P&L oscillates within the
band of the last alert never re-trigger an alert; and a crossing into a new
nonzero band triggers exactly one alert across the crossing refresh and any
following refreshes inside that band. -/
theorem updatePrices_alert_step_bands (now : ℚ) (st : BotState) (mint : Mint)
    (tr : Trade) (d : Coin) (L : ℤ) (ms ms' : List Coin)
    (h : st.openTrades.lookup mint = some tr) (he : 0 < tr.entryMcap) :
    ((updateOne now st mint (some d)).2.pnlAlert = true ↔
      (alertStep (pnlPctOf tr.entryMcap (jsOrQ d.usd_market_cap tr.currentMcap)) ≠ 0 ∧
       tr.lastAlertStep ≠
         some (alertStep (pnlPctOf tr.entryMcap (jsOrQ d.usd_market_cap tr.currentMcap))))) ∧
    (tr.lastAlertStep = some L → inBand tr.entryMcap L ms →
      ∀ a ∈ (runRefresh now mint st (ms.map some)).2, a.pnlAlert = false) ∧
    (alertStep (pnlPctOf tr.entryMcap (jsOrQ d.usd_market_cap tr.currentMcap)) ≠ 0 →
     tr.lastAlertStep ≠
       some (alertStep (pnlPctOf tr.entryMcap (jsOrQ d.usd_market_cap tr.currentMcap))) →
     inBand tr.entryMcap
       (alertStep (pnlPctOf tr.entryMcap (jsOrQ d.usd_market_cap tr.currentMcap))) ms' →
     ((runRefresh now mint st (some d :: ms'.map some)).2.filter
        (fun a => a.pnlAlert)).length = 1) := by
  have hne : tr.entryMcap ≠ 0 := ne_of_gt he
  refine ⟨?_, fun hL hband => ?_, fun hs0 hsL hband => ?_⟩
  · rw [updateOne_pnlAlert now st mint tr d h]
    exact refreshTrade_alert_iff tr d hne
  · have hinv : ∀ tr'', st.openTrades.lookup mint = some tr'' →
        tr''.entryMcap = tr.entryMcap ∧ tr''.lastAlertStep = some L := by
      intro tr'' h''
      rw [h] at h''
      injection h'' with h3
      rw [← h3]
      exact ⟨rfl, hL⟩
    exact (runRefresh_inBand now mint tr.entryMcap L hne ms st hinv hband).1
  · have halert : (refreshTrade tr d).2 = true :=
      (refreshTrade_alert_iff tr d hne).mpr ⟨hs0, hsL⟩
    have hstep' : jsStepOf (calcPnL tr (jsOrQ d.usd_market_cap tr.currentMcap)).pnlPct
        = some (alertStep (pnlPctOf tr.entryMcap (jsOrQ d.usd_market_cap tr.currentMcap))) := by
      rw [calcPnL_pnlPct tr _ hne]
      simp [jsStepOf]
    have hinv1 : ∀ tr'', (updateOne now st mint (some d)).1.openTrades.lookup mint
        = some tr'' → tr''.entryMcap = tr.entryMcap ∧ tr''.lastAlertStep
          = some (alertStep (pnlPctOf tr.entryMcap (jsOrQ d.usd_market_cap tr.currentMcap))) := by
      intro tr'' h''
      rw [updateOne_present now st mint tr d h] at h''
      by_cases hg : (d.complete && !tr.migrated) = true
      · rw [if_pos hg] at h''
        simp only [saveStateTrim] at h''
        simp [lookup_filter_ne] at h''
      · rw [if_neg hg] at h''
        rw [lookup_updateAssoc_some _ _ _ _ h] at h''
        injection h'' with h3
        rw [← h3]
        refine ⟨by rw [refreshTrade_entryMcap], ?_⟩
        rw [refreshTrade_lastAlertStep, halert]
        simp [hstep']
    have hrest := runRefresh_inBand now mint tr.entryMcap
      (alertStep (pnlPctOf tr.entryMcap (jsOrQ d.usd_market_cap tr.currentMcap))) hne ms'
      (updateOne now st mint (some d)).1 hinv1 hband
    have hrun : runRefresh now mint st (some d :: ms'.map some)
        = ((runRefresh now mint (updateOne now st mint (some d)).1 (ms'.map some)).1,
           (updateOne now st mint (some d)).2
             :: (runRefresh now mint (updateOne now st mint (some d)).1 (ms'.map some)).2) := by
      simp [runRefresh]
    rw [hrun]
    have hfil : (runRefresh now mint (updateOne now st mint (some d)).1
        (ms'.map some)).2.filter (fun a => a.pnlAlert) = [] := by
      rw [List.filter_eq_nil_iff]
      intro a ha
      simp [hrest.1 a ha]
    have h1 : (updateOne now st mint (some d)).2.pnlAlert = true := by
      rw [updateOne_pnlAlert now st mint tr d h]
      exact halert
    simp [List.filter, h1, hfil]

def wCoin110 : Coin := { mint := 1, usd_market_cap := some 110 }

def wCoin150 : Coin := { mint := 1, usd_market_cap := some 150 }

def wCoin160 : Coin := { mint := 1, usd_market_cap := some 160 }

theorem updatePrices_alert_step_bands_witness :
    ((updateOne 0 wStateOne 1 (some wCoin160)).2.pnlAlert = true ↔
      (alertStep (pnlPctOf wTrade.entryMcap
          (jsOrQ wCoin160.usd_market_cap wTrade.currentMcap)) ≠ 0 ∧
       wTrade.lastAlertStep ≠
         some (alertStep (pnlPctOf wTrade.entryMcap
           (jsOrQ wCoin160.usd_market_cap wTrade.currentMcap))))) ∧
    (∀ a ∈ (runRefresh 0 1 wStateOne ([wCoin110].map some)).2, a.pnlAlert = false) ∧
    (((runRefresh 0 1 wStateOne (some wCoin160 :: [wCoin150].map some)).2.filter
        (fun a => a.pnlAlert)).length = 1) :=
  ⟨(updatePrices_alert_step_bands 0 wStateOne 1 wTrade wCoin160 0 [wCoin110] [wCoin150]
      rfl (by norm_num [wTrade])).1,
   (updatePrices_alert_step_bands 0 wStateOne 1 wTrade wCoin160 0 [wCoin110] [wCoin150]
      rfl (by norm_num [wTrade])).2.1 rfl
     (by
       intro c hc
       simp only [List.mem_singleton] at hc
       subst hc
       refine ⟨110, rfl, by norm_num, ?_⟩
       norm_num [wTrade, alertStep, pnlPctOf, jsToFixed, jsSignZ, PNL_ALERT_STEP, round_eq]),
   (updatePrices_alert_step_bands 0 wStateOne 1 wTrade wCoin160 0 [wCoin110] [wCoin150]
      rfl (by norm_num [wTrade])).2.2
     (by
       norm_num [wTrade, wCoin160, alertStep, pnlPctOf, jsToFixed, jsSignZ, jsOrQ,
         PNL_ALERT_STEP, round_eq])
     (by
       norm_num [wTrade, wCoin160, alertStep, pnlPctOf, jsToFixed, jsSignZ, jsOrQ,
         PNL_ALERT_STEP, round_eq])
     (by
       intro c hc
       simp only [List.mem_singleton] at hc
       subst hc
       refine ⟨150, rfl, by norm_num, ?_⟩
       norm_num [wTrade, wCoin160, alertStep, pnlPctOf, jsToFixed, jsSignZ, jsOrQ,
         PNL_ALERT_STEP, round_eq])⟩

/-! ## handleMint dedup/pause lemmas (claim C10) -/

/-- A mint already in the dedup set makes `handleMint` a complete no-op. -/
theorem handleMint_seen (now : ℚ) (mint : Mint) (f : Option Coin) (st : BotState)
    (h : st.seenMints.contains mint = true) :
    handleMint now mint f st = (st, {}) := by
  have hm : mint ∈ st.seenMints := by simpa using h
  by_cases h0 : mint = 0
  · simp [handleMint, h0]
  · simp [handleMint, h0, hm]

/-- A fresh mint delivered while paused is recorded in the dedup set and the
received counter before the pause check, and nothing else happens. -/
theorem handleMint_paused_fresh (now : ℚ) (mint : Mint) (f : Option Coin) (st : BotState)
    (h0 : ¬ mint = 0) (hc : st.seenMints.contains mint = false)
    (hp : st.config.paused = true) :
    handleMint now mint f st =
      ({ st with
         seenMints := mint :: st.seenMints
         stats := { st.stats with
           tokensReceived := st.stats.tokensReceived + 1
           lastEventAt := some now } }, {}) := by
  have hm : mint ∉ st.seenMints := by simpa using hc
  simp [handleMint, h0, hm, hp]

/-- A fresh mint delivered while unpaused (with a failed metadata fetch, so no
`complete` early return) is scored. -/
theorem handleMint_scored (now : ℚ) (mint : Mint) (st : BotState)
    (h0 : ¬ mint = 0) (hc : st.seenMints.contains mint = false)
    (hp : st.config.paused = false) :
    (handleMint now mint none st).2.scored = true := by
  have hm : mint ∉ st.seenMints := by simpa using hc
  simp [handleMint, h0, hm, hp, apply_ite]

theorem runTrace_append (st : BotState) (l₁ l₂ : List Event) :
    runTrace st (l₁ ++ l₂) =
      ((runTrace (runTrace st l₁).1 l₂).1,
       (runTrace st l₁).2 ++ (runTrace (runTrace st l₁).1 l₂).2) := by
  induction l₁ generalizing st with
  | nil => simp [runTrace]
  | cons e t ih => simp [runTrace, ih]

/-- Events for `k` deliveries of the fresh distinct mints `a, a+1, …, a+k-1` (metadata
fetch irrelevant while paused). -/
def fillerEvents (a k : ℕ) : List Event :=
  (List.range' a k).map (fun i => Event.deliver i 0 none)

/-- Delivering `k` fresh distinct mints while paused only records them (newest
first) and counts them; no delivery is scored. -/
theorem runTrace_fillers (k : ℕ) :
    ∀ (a : ℕ) (st : BotState), 1 ≤ a →
    st.config.paused = true → st.stats.lastEventAt = some 0 →
    (∀ i, a ≤ i → i < a + k → st.seenMints.contains i = false) →
    runTrace st (fillerEvents a k) =
      ({ st with
         seenMints := (List.range' a k).reverse ++ st.seenMints
         stats := { st.stats with
           tokensReceived := st.stats.tokensReceived + k
           lastEventAt := some 0 } },
       (List.range' a k).map (fun i => (i, ({} : HandleActions)))) := by
  induction k with
  | zero =>
    intro a st ha hp hle hfresh
    show (st, []) = _
    rw [← hle]
    simp
  | succ n ih =>
    intro a st ha hp hle hfresh
    have hcons : fillerEvents a (n + 1)
        = Event.deliver a 0 none :: fillerEvents (a + 1) n := by
      simp [fillerEvents, List.range'_succ]
    have hstep := handleMint_paused_fresh 0 a none st
      (Nat.one_le_iff_ne_zero.mp ha) (hfresh a (le_refl a) (by omega)) hp
    have hfresh1 : ∀ i, a + 1 ≤ i → i < (a + 1) + n →
        (({ st with
           seenMints := a :: st.seenMints
           stats := { st.stats with
             tokensReceived := st.stats.tokensReceived + 1
             lastEventAt := some 0 } } : BotState)).seenMints.contains i = false := by
      intro i hi1 hi2
      have hne : i ≠ a := ne_of_gt hi1
      have hrest : st.seenMints.contains i = false := hfresh i (by omega) (by omega)
      simp
      exact ⟨hne, by simpa using hrest⟩
    have hrec := ih (a + 1)
      ({ st with
         seenMints := a :: st.seenMints
         stats := { st.stats with
           tokensReceived := st.stats.tokensReceived + 1
           lastEventAt := some 0 } }) (by omega) hp rfl hfresh1
    rw [hcons]
    simp only [runTrace, stepEvent, hstep, hrec]
    refine Prod.ext_iff.mpr ⟨?_, ?_⟩
    · simp [BotState.mk.injEq, Stats.mk.injEq, List.range'_succ, List.reverse_cons,
        List.append_assoc, List.singleton_append]
      omega
    · simp [List.range'_succ]

/-- C10 (amended): `handleMint` records a fresh mint in the dedup set and
increments the received counter before checking `config.paused`, so a mint
first delivered while paused is not scored, alerted, or paper-traded by that
delivery, and any delivery of a mint still in the dedup set is a complete
no-op.  (The guarantee lapses only once the mint is evicted by `saveState`'s
dedup trim; see the counterexample.) -/
theorem handleMint_paused_records_then_dedups (now : ℚ) (m₁ m₂ : Mint)
    (f₁ f₂ : Option Coin) (st₁ st₂ : BotState)
    (h0 : ¬ m₁ = 0) (hc : st₁.seenMints.contains m₁ = false)
    (hp : st₁.config.paused = true) (hseen : st₂.seenMints.contains m₂ = true) :
    handleMint now m₁ f₁ st₁ =
      ({ st₁ with
         seenMints := m₁ :: st₁.seenMints
         stats := { st₁.stats with
           tokensReceived := st₁.stats.tokensReceived + 1
           lastEventAt := some now } }, {}) ∧
    handleMint now m₂ f₂ st₂ = (st₂, {}) :=
  ⟨handleMint_paused_fresh now m₁ f₁ st₁ h0 hc hp,
   handleMint_seen now m₂ f₂ st₂ hseen⟩

/-- Fresh state with the scanner paused. -/
def cexState : BotState := { config := { paused := true } }

def cexSeenState : BotState := { seenMints := [7] }

theorem handleMint_paused_records_then_dedups_witness :
    handleMint 5 7 none cexState =
      ({ cexState with
         seenMints := 7 :: cexState.seenMints
         stats := { cexState.stats with
           tokensReceived := cexState.stats.tokensReceived + 1
           lastEventAt := some 5 } }, {}) ∧
    handleMint 5 7 none cexSeenState = (cexSeenState, {}) :=
  handleMint_paused_records_then_dedups 5 7 7 none none cexState cexSeenState
    (by decide) rfl rfl rfl

/-- State after the target mint 50000 was delivered once while paused. -/
def cexSt1 : BotState :=
  { config := { paused := true }, seenMints := [50000],
    stats := { tokensReceived := 1, lastEventAt := some 0 } }

/-- State after 2001 further fresh mints were delivered while still paused. -/
def cexSt2 : BotState :=
  { config := { paused := true },
    seenMints := (List.range' 1 2001).reverse ++ [50000],
    stats := { tokensReceived := 2002, lastEventAt := some 0 } }

/-- State after `/resume`: the dedup set exceeded 2000 entries, so
`saveState` trimmed it to the newest 1000 — evicting mint 50000. -/
def cexSt3 : BotState :=
  { config := { paused := false },
    seenMints := ((List.range' 1 2001).reverse ++ [50000]).take 1000,
    stats := { tokensReceived := 2002, lastEventAt := some 0 } }

/-- The trace that defeats "never scored": 2001 paused filler deliveries,
resume (which trims the dedup set), then a re-delivery of mint 50000. -/
def cexEvents : List Event :=
  fillerEvents 1 2001 ++ [Event.resumeCmd, Event.deliver 50000 0 none]

theorem cex_fill : runTrace cexSt1 (fillerEvents 1 2001) =
    (cexSt2, (List.range' 1 2001).map (fun i => (i, ({} : HandleActions)))) := by
  have hf : ∀ i, 1 ≤ i → i < 1 + 2001 → cexSt1.seenMints.contains i = false := by
    intro i hi1 hi2
    have hne : i ≠ 50000 := Nat.ne_of_lt (lt_of_lt_of_le hi2 (by norm_num))
    simp [cexSt1, hne]
  rw [runTrace_fillers 2001 1 cexSt1 (by decide) rfl rfl hf]
  rfl

theorem cex_fill_fst : (runTrace cexSt1 (fillerEvents 1 2001)).1 = cexSt2 := by
  rw [cex_fill]

theorem cex_fill_snd : (runTrace cexSt1 (fillerEvents 1 2001)).2
    = (List.range' 1 2001).map (fun i => (i, ({} : HandleActions))) := by
  rw [cex_fill]

/-- Command `/resume` on a state whose dedup set exceeds the 2000 high-water mark:
the flag flips and `saveState` trims the set to its newest 1000 entries. -/
theorem resume_trim (c : Config) (sm : List Mint) (sts : Stats)
    (h : 2000 < sm.length) :
    stepEvent (BotState.mk c sm [] [] sts) Event.resumeCmd
      = (BotState.mk { c with paused := false } (sm.take 1000) [] [] sts, none) := by
  simp [stepEvent, saveStateTrim, h]

theorem cex_resume : stepEvent cexSt2 Event.resumeCmd = (cexSt3, none) :=
  resume_trim { paused := true } ((List.range' 1 2001).reverse ++ [50000])
    { tokensReceived := 2002, lastEventAt := some 0 } (by simp)

theorem cex_h1 : handleMint 0 50000 none cexState = (cexSt1, {}) := by
  rw [handleMint_paused_fresh 0 50000 none cexState (by decide) rfl rfl]
  rfl

set_option maxRecDepth 2500 in
theorem cex_evicted : cexSt3.seenMints.contains 50000 = false := by
  have htk : ((((List.range' 1 2001).reverse ++ [50000]) : List Mint)).take 1000
      = (((List.range' 1 2001).reverse : List Mint)).take 1000 :=
    List.take_append_of_le_length (by simp)
  have hnm : (50000 : Mint) ∉ (((List.range' 1 2001).reverse : List Mint)).take 1000 := by
    intro hmem
    have h1 : (50000 : Mint) ∈ ((List.range' 1 2001).reverse : List Mint) :=
      List.take_subset _ _ hmem
    have h2 : (50000 : Mint) ∈ List.range' 1 2001 := List.mem_reverse.mp h1
    have h3 := (List.mem_range'_1.mp h2).2
    norm_num at h3
  show ((((List.range' 1 2001).reverse ++ [50000]) : List Mint).take 1000).contains 50000
      = false
  rw [htk]
  simpa using hnm

theorem cex_tail_snd : (runTrace cexSt2 [Event.resumeCmd, Event.deliver 50000 0 none]).2
    = [(50000, (handleMint 0 50000 none cexSt3).2)] := by
  simp only [runTrace]
  rw [cex_resume]
  simp [stepEvent]

set_option maxRecDepth 2500 in
theorem cex_htrace : (runTrace cexSt1 cexEvents).2
    = (List.range' 1 2001).map (fun i => (i, ({} : HandleActions)))
      ++ [(50000, (handleMint 0 50000 none cexSt3).2)] := by
  show (runTrace cexSt1
    (fillerEvents 1 2001 ++ [Event.resumeCmd, Event.deliver 50000 0 none])).2 = _
  rw [runTrace_append]
  show (runTrace cexSt1 (fillerEvents 1 2001)).2
      ++ (runTrace (runTrace cexSt1 (fillerEvents 1 2001)).1
           [Event.resumeCmd, Event.deliver 50000 0 none]).2 = _
  rw [cex_fill_snd, cex_fill_fst, cex_tail_snd]

set_option maxRecDepth 2500 in
theorem cex_hmem : ((50000 : Mint), (handleMint 0 50000 none cexSt3).2)
    ∈ (runTrace (handleMint 0 50000 none cexState).1 cexEvents).2 := by
  rw [cex_h1]
  show _ ∈ (runTrace cexSt1 cexEvents).2
  rw [cex_htrace]
  exact List.mem_append_right _ (List.mem_singleton_self _)

set_option maxRecDepth 2500 in
/-- C10 (counterexample): it is not true that a mint first delivered
while `config.paused` is true is never scored on any later delivery: after
enough intervening deliveries the dedup trim evicts it, and a re-delivery
after resume is scored. -/
theorem handleMint_paused_never_scored_cex :
    ¬ (∀ (st : BotState) (mint : Mint) (now : ℚ) (fetched : Option Coin)
        (evs : List Event),
        st.seenMints.contains mint = false → st.config.paused = true →
        ((handleMint now mint fetched st).2 = {} ∧
         ∀ p ∈ (runTrace (handleMint now mint fetched st).1 evs).2,
           p.1 = mint → p.2.scored = false)) := by
  intro hclaim
  have hscored : (handleMint 0 50000 none cexSt3).2.scored = true :=
    handleMint_scored 0 50000 cexSt3 (by decide) cex_evicted rfl
  have h2 := (hclaim cexState 50000 0 none cexEvents rfl rfl).2
  have h3 := h2 ((50000 : Mint), (handleMint 0 50000 none cexSt3).2) cex_hmem (by simp)
  simp only [] at h3
  exact Bool.noConfusion (hscored.symm.trans h3)

end PumpBot
